import Mathlib

/-!
Shallow embedding of the wake-ollama proxy (src/main.go) and proofs of the
spec claims.  Machine bytes are modelled as Nat values below 256, durations
as Nat nanoseconds, and the effectful parts (UDP sends, TCP probes, the
HTTP relay) as pure functions over an explicit environment that records the
outcome of each external interaction, returning the list of observable
events the Go code would emit.
-/

namespace WakeOllama

/-! ## MAC normalization and hex decoding (src/main.go lines 174–181)

Go: clean = strings.ReplaceAll x3 removing ":", "-", "." ; then a length-12
check; then hex.DecodeString. -/

/-- Model of strings.ReplaceAll s d "" for a single-character d: every
occurrence of the character is removed. -/
def removeAll (d : Char) (s : List Char) : List Char :=
  s.filter (fun c => c ≠ d)

/-- Lines 174: the three nested ReplaceAll calls, innermost first
(":" then "-" then "."). -/
def cleanMac (s : List Char) : List Char :=
  removeAll '.' (removeAll '-' (removeAll ':' s))

/-- encoding/hex fromHexChar: value of one hex digit, none when the
character is not a hex digit. -/
def fromHexChar (c : Char) : Option Nat :=
  if '0' ≤ c ∧ c ≤ '9' then some (c.toNat - '0'.toNat)
  else if 'a' ≤ c ∧ c ≤ 'f' then some (c.toNat - 'a'.toNat + 10)
  else if 'A' ≤ c ∧ c ≤ 'F' then some (c.toNat - 'A'.toNat + 10)
  else none

/-- encoding/hex DecodeString: pairs of hex digits become bytes; an odd
length or a non-hex character is an error (modelled as none). -/
def hexDecode : List Char → Option (List Nat)
  | [] => some []
  | [_] => none
  | hi :: lo :: rest =>
    match fromHexChar hi, fromHexChar lo, hexDecode rest with
    | some h, some l, some bs => some ((h * 16 + l) :: bs)
    | _, _, _ => none

/-- Lines 174–181 of sendMagicPacket: normalize the textual MAC and decode
it to raw bytes; none models the two error returns (wrong stripped length,
invalid hex). -/
def parseMac (mac : List Char) : Option (List Nat) :=
  let clean := cleanMac mac
  if clean.length ≠ 12 then none
  else hexDecode clean

/-! ## Wake packet construction (src/main.go lines 183–190) -/

/-- Lines 184–190: 6 bytes of 0xFF followed by 16 copies of the 6 MAC
bytes (the Go loop copies macBytes into packet at offsets 6 + i*6). -/
def buildPacket (macBytes : List Nat) : List Nat :=
  List.replicate 6 0xFF ++ (List.replicate 16 macBytes).flatten

/-! ## UDP send loop (src/main.go lines 192–217)

The environment supplies, per destination address, whether the
resolve/dial/write sequence succeeds.  The Go loop records the last error,
continues past failures, and returns nil as soon as one write succeeds —
skipping every later destination. -/

inductive SendEvent where
  | sendAttempt (addr : String)
  deriving DecidableEq, Repr

/-- Line 193: the two destinations, in order. -/
def wolAddrs (deviceIP : String) : List String :=
  [deviceIP ++ ":9", "255.255.255.255:9"]

/-- Lines 195–216: attempt each address in order; stop with success at the
first address whose send succeeds, otherwise fall through recording the
failure; error when every address failed (Go returns lastErr). -/
def trySendLoop (sendOk : String → Bool) : List String → List SendEvent × Except String Unit
  | [] => ([], Except.error "all sends failed")
  | a :: rest =>
    if sendOk a then ([SendEvent.sendAttempt a], Except.ok ())
    else
      let r := trySendLoop sendOk rest
      (SendEvent.sendAttempt a :: r.1, r.2)

/-- Lines 172–218: sendMagicPacket.  Parse failures return an error before
any send attempt (empty event list); otherwise the destination loop runs. -/
def sendMagicPacket (deviceIP : String) (mac : List Char) (sendOk : String → Bool) :
    List SendEvent × Except String Unit :=
  match parseMac mac with
  | none => ([], Except.error "invalid mac")
  | some _ => trySendLoop sendOk (wolAddrs deviceIP)

/-! ## Wake coordinator: wakeAndProxyHandler up to the relay
(src/main.go lines 83–116)

Time is modelled as Nat nanoseconds starting at 0 when the handler runs;
probes and the wake send are instantaneous, the inter-poll wait advances
time by pollInterval.  The environment gives the probe result as a function
of time and the instant (if any) at which the inbound context is cancelled.
The select between ctx.Done and time.After(pollInterval) is determinized:
the cancel branch fires when the cancel instant lies strictly before the
instant the poll timer would fire (a cancel already pending fires at once);
an exact tie goes to the timer. -/

structure Config where
  pollInterval : Nat
  wakeTimeout : Nat
  deriving DecidableEq, Repr

structure Env where
  up : Nat → Bool
  cancelAt : Option Nat

inductive Event where
  | probe (t : Nat)
  | wol
  | logSend (ok : Bool)
  deriving DecidableEq, Repr

/-- Terminal outcome of the wake phase.  relayed: fell through to the proxy
code at line 118.  timeout504 / cancelled408: the two error returns of the
polling loop.  outOfFuel is a model artifact, unreachable for the fuel the
handler passes (proved below). -/
inductive HOut where
  | relayed
  | timeout504
  | cancelled408
  | outOfFuel
  deriving DecidableEq, Repr

/-- The HTTP status written for each terminal outcome (http.Error calls at
lines 104 and 110); none when the handler proceeds to the relay. -/
def httpStatus : HOut → Option Nat
  | HOut.timeout504 => some 504
  | HOut.cancelled408 => some 408
  | _ => none

structure HResult where
  events : List Event
  out : HOut
  exitTime : Nat
  deriving DecidableEq, Repr

/-- Lines 98–115: the polling loop.  Each iteration probes, breaks when up,
returns 504 once the current time is strictly past the deadline, and
otherwise races cancellation against the poll timer. -/
def pollLoop (cfg : Config) (env : Env) (deadline : Nat) : Nat → Nat → HResult
  | 0, now => ⟨[], HOut.outOfFuel, now⟩
  | fuel + 1, now =>
    if env.up now then ⟨[Event.probe now], HOut.relayed, now⟩
    else if deadline < now then ⟨[Event.probe now], HOut.timeout504, now⟩
    else
      match env.cancelAt with
      | some c =>
        if c < now + cfg.pollInterval then
          ⟨[Event.probe now], HOut.cancelled408, max now c⟩
        else
          let r := pollLoop cfg env deadline fuel (now + cfg.pollInterval)
          ⟨Event.probe now :: r.events, r.out, r.exitTime⟩
      | none =>
        let r := pollLoop cfg env deadline fuel (now + cfg.pollInterval)
        ⟨Event.probe now :: r.events, r.out, r.exitTime⟩

/-- Lines 87–116: the initial probe, the best-effort wake send (its result
sendOk is only logged, lines 89–94), the deadline computation at line 97,
and the polling loop.  The fuel bound exceeds the number of poll iterations
possible before the deadline check fires whenever pollInterval is
positive. -/
def handler (cfg : Config) (env : Env) (sendOk : Bool) : HResult :=
  if env.up 0 then ⟨[Event.probe 0], HOut.relayed, 0⟩
  else
    let fuel := cfg.wakeTimeout / cfg.pollInterval + 2
    let r := pollLoop cfg env cfg.wakeTimeout fuel 0
    ⟨Event.probe 0 :: Event.wol :: Event.logSend sendOk :: r.events, r.out, r.exitTime⟩

/-! ## Header copying and the relay (src/main.go lines 118–157)

Go http.Header is a map from canonical header name to the slice of values
for that name, so a request carrying two instances of one header name holds
both values, in order, under one key.  We model it as an association list
(names nodup by the map invariant); Header.Add appends to the slice of an
existing key or creates the key. -/

abbrev Header := List (String × List String)

def lookupH : Header → String → Option (List String)
  | [], _ => none
  | (n, vs) :: rest, name => if n = name then some vs else lookupH rest name

/-- net/http Header.Add: append the value to the slice for the name,
creating the entry when absent. -/
def headerAdd : Header → String → String → Header
  | [], name, v => [(name, [v])]
  | (n, vs) :: rest, name, v =>
    if n = name then (n, vs ++ [v]) :: rest
    else (n, vs) :: headerAdd rest name v

/-- Lines 133–137 (and identically 150–154): the nested range loop that
Adds every value of every inbound entry into the destination header. -/
def copyHeaders (src dst : Header) : Header :=
  src.foldl (fun acc p => p.2.foldl (fun a v => headerAdd a p.1 v) acc) dst

/-- Outcome of client.Do plus the backend response stream.  chunks are the
body fragments io.Copy successfully reads; midErr records whether the read
after the last chunk fails (true) or is a clean EOF (false). -/
structure BackendResp where
  status : Nat
  headers : Header
  chunks : List String
  midErr : Bool

inductive BackendOutcome where
  | connError
  | ok (r : BackendResp)

inductive RelayEvent where
  | requestSent (headers : Header)
  | error502
  | wroteRespHeaders (headers : Header)
  | wroteHeader (status : Nat)
  | wroteChunk (data : String)
  deriving DecidableEq, Repr

structure RelayResult where
  events : List RelayEvent
  requestCount : Nat
  deriving DecidableEq, Repr

/-- Lines 118–157: build the outbound request copying inbound headers,
call client.Do exactly once (requestCount), answer 502 on a connection
error (lines 142–146); otherwise copy the response headers, write the
backend status (line 155) and stream the body with io.Copy, whose error —
a mid-stream failure — is discarded at line 156, emitting nothing
further. -/
def relay (inHeaders : Header) (be : BackendOutcome) : RelayResult :=
  let reqH := copyHeaders inHeaders []
  match be with
  | BackendOutcome.connError =>
    ⟨[RelayEvent.requestSent reqH, RelayEvent.error502], 1⟩
  | BackendOutcome.ok r =>
    let respH := copyHeaders r.headers []
    ⟨RelayEvent.requestSent reqH :: RelayEvent.wroteRespHeaders respH ::
       RelayEvent.wroteHeader r.status :: r.chunks.map RelayEvent.wroteChunk, 1⟩

/-! ## time.ParseDuration and initConfig (src/main.go lines 42–64)

initConfig builds the interval by appending the literal suffix "s" to the
environment string and handing the result to Go time.ParseDuration, falling
back to the default on any parse error.  ParseDuration is embedded below
from the Go standard library (time/format.go): durations are Int
nanoseconds, the uint64 accumulator is a Nat guarded by the same 2^63
overflow checks.  The only liberty: Go computes the fractional-digit
contribution in float64 as f * (unit / scale); we use the exact
f * unit / scale in Nat, which agrees wherever the float rounding does not
bite (no claim here involves fractional digits). -/

/-- time/format.go leadingInt: consume leading decimal digits into x,
erroring past 2^63. -/
def leadingInt : Nat → List Char → Option (Nat × List Char)
  | x, [] => some (x, [])
  | x, c :: rest =>
    if ¬ ('0' ≤ c ∧ c ≤ '9') then some (x, c :: rest)
    else if x > 2 ^ 63 / 10 then none
    else
      let x' := x * 10 + (c.toNat - '0'.toNat)
      if x' > 2 ^ 63 then none
      else leadingInt x' rest

/-- time/format.go leadingFraction: consume digits after the decimal
point, tracking the power-of-ten scale, silently dropping digits once the
accumulator would overflow. -/
def leadingFraction : Nat → Nat → Bool → List Char → Nat × Nat × List Char
  | x, scale, _, [] => (x, scale, [])
  | x, scale, ovf, c :: rest =>
    if ¬ ('0' ≤ c ∧ c ≤ '9') then (x, scale, c :: rest)
    else if ovf then leadingFraction x scale true rest
    else if x > (2 ^ 63 - 1) / 10 then leadingFraction x scale true rest
    else
      let y := x * 10 + (c.toNat - '0'.toNat)
      if y > 2 ^ 63 then leadingFraction x scale true rest
      else leadingFraction y (scale * 10) false rest

/-- time/format.go unitMap: nanoseconds per unit token. -/
def unitValue : List Char → Option Nat
  | ['n', 's'] => some 1
  | ['u', 's'] => some 1000
  | ['µ', 's'] => some 1000
  | ['μ', 's'] => some 1000
  | ['m', 's'] => some 1000000
  | ['s'] => some 1000000000
  | ['m'] => some 60000000000
  | ['h'] => some 3600000000000
  | _ => none

/-- A character at which the unit token ends. -/
def unitBreak (ch : Char) : Prop := ch = '.' ∨ ('0' ≤ ch ∧ ch ≤ '9')

instance (ch : Char) : Decidable (unitBreak ch) := by
  unfold unitBreak; infer_instance

/-- The iterations of the ParseDuration main loop, one (number, fraction,
unit) group per call; fuel is the remaining string length, enough because a
group consumes at least its unit character. -/
def durLoop : Nat → Nat → List Char → Option Nat
  | _, d, [] => some d
  | 0, _, _ :: _ => none
  | fuel + 1, d, c :: cs =>
    if ¬ (c = '.' ∨ ('0' ≤ c ∧ c ≤ '9')) then none
    else
      match leadingInt 0 (c :: cs) with
      | none => none
      | some (v, s1) =>
        let pre : Bool := s1.length != (c :: cs).length
        match
          (match s1 with
           | '.' :: s2 =>
             let t := leadingFraction 0 1 false s2
             (t.1, t.2.1, t.2.2, (t.2.2.length != s2.length : Bool))
           | _ => ((0 : Nat), (1 : Nat), s1, false)) with
        | (f, scale, s3, post) =>
          if pre = false ∧ post = false then none
          else
            let u := s3.takeWhile (fun ch => ¬ unitBreak ch)
            let s4 := s3.dropWhile (fun ch => ¬ unitBreak ch)
            if u.length = 0 then none
            else
              match unitValue u with
              | none => none
              | some unit =>
                if v > 2 ^ 63 / unit then none
                else
                  let v1 := v * unit
                  let v2 := if f > 0 then v1 + f * unit / scale else v1
                  if f > 0 ∧ v2 > 2 ^ 63 then none
                  else
                    let d' := d + v2
                    if d' > 2 ^ 63 then none
                    else durLoop fuel d' s4

/-- time.ParseDuration: optional sign, the special case "0", then the
grouped loop; the result in Int nanoseconds, none on any parse error. -/
def parseDuration (str : String) : Option Int :=
  let s0 := str.toList
  let neg : Bool := match s0 with
    | '-' :: _ => true
    | _ => false
  let s := match s0 with
    | '-' :: rest => rest
    | '+' :: rest => rest
    | _ => s0
  if s = ['0'] then some 0
  else if s = [] then none
  else
    match durLoop s.length 0 s with
    | none => none
    | some d =>
      if neg then some (-(d : Int))
      else if d > 2 ^ 63 - 1 then none
      else some ((d : Int))

def nsPerSec : Nat := 1000000000

/-- Lines 42–52: POLL_INTERVAL_SEC handling.  Empty (or unset, which
os.Getenv reports as empty) gives the 2s default; otherwise
time.ParseDuration(value ++ "s"), and any parse error silently falls back
to the 2s default — initConfig returns nil either way. -/
def effectivePollInterval (pi : String) : Int :=
  if pi = "" then 2 * nsPerSec
  else
    match parseDuration (pi ++ "s") with
    | some d => d
    | none => 2 * nsPerSec

/-- Lines 54–64: WAKE_TIMEOUT_SEC handling, default 120s. -/
def effectiveWakeTimeout (tw : String) : Int :=
  if tw = "" then 120 * nsPerSec
  else
    match parseDuration (tw ++ "s") with
    | some d => d
    | none => 120 * nsPerSec

/-! ## Claims about the magic packet -/

/-- C6: for every valid 6-byte hardware address, the constructed wake
packet is exactly 102 bytes, bytes 0–5 all equal 0xFF, and for every
i in 0..15 the block at offsets 6+6i .. 6+6i+5 equals the 6 address
bytes. -/
theorem C6_packet_layout (mac : List Nat) (h : mac.length = 6) :
    (buildPacket mac).length = 102 ∧
    (∀ i, i < 6 → (buildPacket mac)[i]? = some 0xFF) ∧
    (∀ i j, i < 16 → j < 6 → (buildPacket mac)[6 + 6 * i + j]? = mac[j]?) := by
  match mac, h with
  | [a, b, c, d, e, f], _ =>
    refine ⟨rfl, ?_, ?_⟩
    · intro i hi
      interval_cases i <;> rfl
    · intro i j hi hj
      interval_cases i <;> interval_cases j <;> rfl

/-- Witness for C6 at a concrete address. -/
theorem C6_packet_layout_witness :
    (buildPacket [0xAA, 0xBB, 0xCC, 0xDD, 0xEE, 0xFF]).length = 102 ∧
    (∀ i, i < 6 → (buildPacket [0xAA, 0xBB, 0xCC, 0xDD, 0xEE, 0xFF])[i]? = some 0xFF) ∧
    (∀ i j, i < 16 → j < 6 →
      (buildPacket [0xAA, 0xBB, 0xCC, 0xDD, 0xEE, 0xFF])[6 + 6 * i + j]? =
        [0xAA, 0xBB, 0xCC, 0xDD, 0xEE, 0xFF][j]?) :=
  C6_packet_layout [0xAA, 0xBB, 0xCC, 0xDD, 0xEE, 0xFF] rfl

/-- C7: stripping the three delimiter characters determines the parse, so
any delimiter style around the same 12 hex digits yields identical bytes;
a stripped form that is not 12 characters is rejected, as is non-hex
content, and a rejected address produces no send attempt (and an error)
in sendMagicPacket. -/
theorem C7_mac_normalization :
    (∀ s₁ s₂ : List Char, cleanMac s₁ = cleanMac s₂ → parseMac s₁ = parseMac s₂) ∧
    (∀ s : List Char, (cleanMac s).length ≠ 12 → parseMac s = none) ∧
    (∀ s : List Char, hexDecode (cleanMac s) = none → parseMac s = none) ∧
    (∀ (deviceIP : String) (mac : List Char) (sendOk : String → Bool),
      parseMac mac = none →
        (sendMagicPacket deviceIP mac sendOk).1 = [] ∧
        (sendMagicPacket deviceIP mac sendOk).2 = Except.error "invalid mac") := by
  refine ⟨?_, ?_, ?_, ?_⟩
  · intro s₁ s₂ h
    unfold parseMac
    rw [h]
  · intro s h
    simp [parseMac, h]
  · intro s h
    show (if (cleanMac s).length ≠ 12 then none else hexDecode (cleanMac s)) = none
    split <;> simp [h]
  · intro deviceIP mac sendOk h
    simp [sendMagicPacket, h]

/-- Witness for C7: the four delimiter styles agree on concrete input, a
short address is rejected, a non-hex address is rejected, and a rejected
address reaches no send. -/
theorem C7_mac_normalization_witness :
    parseMac "aa:bb:cc:dd:ee:ff".toList = parseMac "aa-bb-cc-dd-ee-ff".toList ∧
    parseMac "aabb.ccdd.eeff".toList = parseMac "aabbccddeeff".toList ∧
    parseMac "aa:bb".toList = none ∧
    parseMac "aabbccddeefg".toList = none ∧
    (sendMagicPacket "10.0.0.5" "aa:bb".toList (fun _ => true)).1 = [] :=
  ⟨C7_mac_normalization.1 _ _ (by decide),
   C7_mac_normalization.1 _ _ (by decide),
   C7_mac_normalization.2.1 _ (by decide),
   C7_mac_normalization.2.2.1 _ (by decide),
   (C7_mac_normalization.2.2.2 "10.0.0.5" _ (fun _ => true) (by decide)).1⟩

/-- C4 counterexample: when the send to the device IP succeeds, the loop
returns at once and the broadcast address is never attempted, so it is
false that both destinations receive an attempt on every invocation. -/
theorem C4_counterexample :
    (sendMagicPacket "10.0.0.5" "aa:bb:cc:dd:ee:ff".toList (fun _ => true)).1 =
      [SendEvent.sendAttempt "10.0.0.5:9"] ∧
    SendEvent.sendAttempt "255.255.255.255:9" ∉
      (sendMagicPacket "10.0.0.5" "aa:bb:cc:dd:ee:ff".toList (fun _ => true)).1 := by
  constructor
  · rfl
  · decide

/-- C4 amended: with a valid address the sender attempts the device IP
first and stops there on success; the broadcast address is attempted
exactly when the device-IP send fails, in which case the call succeeds iff
the broadcast send does. -/
theorem C4_amended (deviceIP : String) (mac : List Char) (sendOk : String → Bool)
    (bs : List Nat) (h : parseMac mac = some bs) :
    (sendOk (deviceIP ++ ":9") = true →
      (sendMagicPacket deviceIP mac sendOk).1 = [SendEvent.sendAttempt (deviceIP ++ ":9")] ∧
      (sendMagicPacket deviceIP mac sendOk).2 = Except.ok ()) ∧
    (sendOk (deviceIP ++ ":9") = false →
      (sendMagicPacket deviceIP mac sendOk).1 =
        [SendEvent.sendAttempt (deviceIP ++ ":9"), SendEvent.sendAttempt "255.255.255.255:9"] ∧
      ((sendMagicPacket deviceIP mac sendOk).2 = Except.ok () ↔
        sendOk "255.255.255.255:9" = true)) := by
  constructor
  · intro hd
    simp [sendMagicPacket, h, wolAddrs, trySendLoop, hd]
  · intro hd
    cases hb : sendOk "255.255.255.255:9" <;>
      simp [sendMagicPacket, h, wolAddrs, trySendLoop, hd, hb]

/-- Witness for C4 amended: concrete runs for a succeeding and a failing
device-IP send. -/
theorem C4_amended_witness :
    ((sendMagicPacket "10.0.0.5" "aabbccddeeff".toList (fun _ => true)).1 =
      [SendEvent.sendAttempt "10.0.0.5:9"] ∧
     (sendMagicPacket "10.0.0.5" "aabbccddeeff".toList (fun _ => true)).2 = Except.ok ()) ∧
    ((sendMagicPacket "10.0.0.5" "aabbccddeeff".toList (fun _ => false)).1 =
      [SendEvent.sendAttempt "10.0.0.5:9", SendEvent.sendAttempt "255.255.255.255:9"] ∧
     ((sendMagicPacket "10.0.0.5" "aabbccddeeff".toList (fun _ => false)).2 = Except.ok () ↔
       (fun _ => false) "255.255.255.255:9" = true)) :=
  ⟨(C4_amended "10.0.0.5" _ _ [0xAA, 0xBB, 0xCC, 0xDD, 0xEE, 0xFF] (by decide)).1 rfl,
   (C4_amended "10.0.0.5" _ _ [0xAA, 0xBB, 0xCC, 0xDD, 0xEE, 0xFF] (by decide)).2 rfl⟩

/-! ## Claims about the wake coordinator -/

/-- C1: when the initial probe succeeds the handler emits no wake packet
and proceeds directly to the relay — its whole wake-phase trace is the one
successful probe. -/
theorem C1_fast_path (cfg : Config) (env : Env) (sendOk : Bool) (h : env.up 0 = true) :
    (handler cfg env sendOk).out = HOut.relayed ∧
    Event.wol ∉ (handler cfg env sendOk).events ∧
    (handler cfg env sendOk).events = [Event.probe 0] := by
  simp [handler, h]

/-- Witness for C1 with an always-up device. -/
theorem C1_fast_path_witness :
    (handler ⟨2, 120⟩ ⟨fun _ => true, none⟩ true).out = HOut.relayed ∧
    Event.wol ∉ (handler ⟨2, 120⟩ ⟨fun _ => true, none⟩ true).events ∧
    (handler ⟨2, 120⟩ ⟨fun _ => true, none⟩ true).events = [Event.probe 0] :=
  C1_fast_path ⟨2, 120⟩ ⟨fun _ => true, none⟩ true rfl

/-- Helper: with the device never up and no cancellation, the polling loop
ends in the 504 branch, strictly after the deadline and at most one poll
interval past it, given fuel for every iteration before the exit. -/
theorem pollLoop_timeout (cfg : Config) (env : Env) (deadline : Nat)
    (hup : ∀ t, env.up t = false) (hc : env.cancelAt = none) :
    ∀ fuel now, now ≤ deadline + cfg.pollInterval →
      deadline + cfg.pollInterval < now + fuel * cfg.pollInterval →
      (pollLoop cfg env deadline fuel now).out = HOut.timeout504 ∧
      deadline < (pollLoop cfg env deadline fuel now).exitTime ∧
      (pollLoop cfg env deadline fuel now).exitTime ≤ deadline + cfg.pollInterval := by
  intro fuel
  induction fuel with
  | zero =>
    intro now h1 h2
    exfalso
    omega
  | succ n ih =>
    intro now h1 h2
    by_cases hd : deadline < now
    · simp [pollLoop, hup, hc, hd]
      omega
    · have hstep : (n + 1) * cfg.pollInterval = n * cfg.pollInterval + cfg.pollInterval :=
        Nat.succ_mul n cfg.pollInterval
      have hrec := ih (now + cfg.pollInterval) (by omega) (by omega)
      simp only [pollLoop, hup, hc, Bool.false_eq_true, if_false, if_neg hd]
      exact hrec

/-- C2: with the device never reachable and no cancellation, the handler
answers 504 at a time at least the wake timeout after polling began and at
most the wake timeout plus one poll interval. -/
theorem C2_timeout_bounds (cfg : Config) (env : Env) (sendOk : Bool)
    (hup : ∀ t, env.up t = false) (hc : env.cancelAt = none) (hp : 0 < cfg.pollInterval) :
    httpStatus (handler cfg env sendOk).out = some 504 ∧
    cfg.wakeTimeout ≤ (handler cfg env sendOk).exitTime ∧
    (handler cfg env sendOk).exitTime ≤ cfg.wakeTimeout + cfg.pollInterval := by
  have hmod : cfg.wakeTimeout % cfg.pollInterval < cfg.pollInterval :=
    Nat.mod_lt _ hp
  have hdiv := Nat.div_add_mod cfg.wakeTimeout cfg.pollInterval
  have hexp : (cfg.wakeTimeout / cfg.pollInterval + 2) * cfg.pollInterval =
      cfg.pollInterval * (cfg.wakeTimeout / cfg.pollInterval) + 2 * cfg.pollInterval := by
    ring
  have key := pollLoop_timeout cfg env cfg.wakeTimeout hup hc
      (cfg.wakeTimeout / cfg.pollInterval + 2) 0 (by omega) (by omega)
  simp [handler, hup 0]
  rw [key.1]
  exact ⟨rfl, le_of_lt key.2.1, key.2.2⟩

/-- Witness for C2: poll interval 2, wake timeout 5, device never up. -/
theorem C2_timeout_bounds_witness :
    httpStatus (handler ⟨2, 5⟩ ⟨fun _ => false, none⟩ true).out = some 504 ∧
    5 ≤ (handler ⟨2, 5⟩ ⟨fun _ => false, none⟩ true).exitTime ∧
    (handler ⟨2, 5⟩ ⟨fun _ => false, none⟩ true).exitTime ≤ 5 + 2 :=
  C2_timeout_bounds ⟨2, 5⟩ ⟨fun _ => false, none⟩ true (fun _ => rfl) rfl (by decide)

/-- Helper: with the device never up and cancellation at instant c before
the deadline, the polling loop ends in the 408 branch exactly at c, and
every probe it issued happened no later than c. -/
theorem pollLoop_cancel (cfg : Config) (env : Env) (deadline c : Nat)
    (hup : ∀ t, env.up t = false) (hc : env.cancelAt = some c) (hcd : c ≤ deadline) :
    ∀ fuel now, now ≤ c → c < now + fuel * cfg.pollInterval →
      (pollLoop cfg env deadline fuel now).out = HOut.cancelled408 ∧
      (pollLoop cfg env deadline fuel now).exitTime = c ∧
      ∀ t, Event.probe t ∈ (pollLoop cfg env deadline fuel now).events → t ≤ c := by
  intro fuel
  induction fuel with
  | zero =>
    intro now h1 h2
    exfalso
    omega
  | succ n ih =>
    intro now h1 h2
    have hd : ¬ deadline < now := by omega
    by_cases hcc : c < now + cfg.pollInterval
    · simp [pollLoop, hup, hc, hd, hcc]
      omega
    · have hstep : (n + 1) * cfg.pollInterval = n * cfg.pollInterval + cfg.pollInterval :=
        Nat.succ_mul n cfg.pollInterval
      have hrec := ih (now + cfg.pollInterval) (by omega) (by omega)
      simp only [pollLoop, hup, hc, Bool.false_eq_true, if_false, if_neg hd, if_neg hcc]
      refine ⟨hrec.1, hrec.2.1, ?_⟩
      intro t ht
      rcases List.mem_cons.mp ht with h | h
      · cases h
        omega
      · exact hrec.2.2 t h

/-- C3: when the client cancels at instant c while the handler is polling
(device down, c within the wake timeout), the handler answers 408 within
one poll interval of c and every probe it ever issued happened no later
than c — no probe follows the observed cancellation. -/
theorem C3_cancelled (cfg : Config) (env : Env) (sendOk : Bool) (c : Nat)
    (hup : ∀ t, env.up t = false) (hc : env.cancelAt = some c)
    (hp : 0 < cfg.pollInterval) (hcd : c ≤ cfg.wakeTimeout) :
    httpStatus (handler cfg env sendOk).out = some 408 ∧
    (handler cfg env sendOk).exitTime ≤ c + cfg.pollInterval ∧
    ∀ t, Event.probe t ∈ (handler cfg env sendOk).events → t ≤ c := by
  have hmod : cfg.wakeTimeout % cfg.pollInterval < cfg.pollInterval :=
    Nat.mod_lt _ hp
  have hdiv := Nat.div_add_mod cfg.wakeTimeout cfg.pollInterval
  have hexp : (cfg.wakeTimeout / cfg.pollInterval + 2) * cfg.pollInterval =
      cfg.pollInterval * (cfg.wakeTimeout / cfg.pollInterval) + 2 * cfg.pollInterval := by
    ring
  have key := pollLoop_cancel cfg env cfg.wakeTimeout c hup hc hcd
      (cfg.wakeTimeout / cfg.pollInterval + 2) 0 (by omega) (by omega)
  simp [handler, hup 0]
  rw [key.1]
  refine ⟨rfl, by rw [key.2.1]; omega, ?_⟩
  intro t ht
  exact key.2.2 t ht

/-- Witness for C3: poll interval 2, wake timeout 10, cancel at 3. -/
theorem C3_cancelled_witness :
    httpStatus (handler ⟨2, 10⟩ ⟨fun _ => false, some 3⟩ true).out = some 408 ∧
    (handler ⟨2, 10⟩ ⟨fun _ => false, some 3⟩ true).exitTime ≤ 3 + 2 ∧
    ∀ t, Event.probe t ∈ (handler ⟨2, 10⟩ ⟨fun _ => false, some 3⟩ true).events → t ≤ 3 :=
  C3_cancelled ⟨2, 10⟩ ⟨fun _ => false, some 3⟩ true 3
    (fun _ => rfl) rfl (by decide) (by decide)

/-- C9: the wake-send outcome does not gate progress and is never turned
into an error response — for identical probe and cancellation behaviour,
the handler reaches the same terminal outcome at the same instant with the
same trace apart from the log line recording the send result. -/
theorem C9_send_outcome_immaterial (cfg : Config) (env : Env) (s₁ s₂ : Bool) :
    (handler cfg env s₁).out = (handler cfg env s₂).out ∧
    (handler cfg env s₁).exitTime = (handler cfg env s₂).exitTime ∧
    (handler cfg env s₁).events.filter
        (fun e => match e with | Event.logSend _ => false | _ => true) =
      (handler cfg env s₂).events.filter
        (fun e => match e with | Event.logSend _ => false | _ => true) := by
  by_cases h : env.up 0 = true <;> simp [handler, h]

/-! ## Claims about the relay -/

/-- Helper: Header.Add for a name absent from the map appends a fresh
entry. -/
theorem headerAdd_notMem (n v : String) :
    ∀ acc : Header, n ∉ acc.map Prod.fst → headerAdd acc n v = acc ++ [(n, [v])] := by
  intro acc
  induction acc with
  | nil => intro _; rfl
  | cons p rest ih =>
    intro h
    obtain ⟨n', vs⟩ := p
    simp only [List.map_cons, List.mem_cons] at h
    push_neg at h
    have hne : ¬ n' = n := fun hh => h.1 hh.symm
    simp [headerAdd, hne, ih h.2]

/-- Helper: Header.Add for a name already stored as the final entry
appends the value to that entry. -/
theorem headerAdd_last (n v : String) (vs : List String) :
    ∀ acc : Header, n ∉ acc.map Prod.fst →
      headerAdd (acc ++ [(n, vs)]) n v = acc ++ [(n, vs ++ [v])] := by
  intro acc
  induction acc with
  | nil => intro _; simp [headerAdd]
  | cons p rest ih =>
    intro h
    obtain ⟨n', ws⟩ := p
    simp only [List.map_cons, List.mem_cons] at h
    push_neg at h
    have hne : ¬ n' = n := fun hh => h.1 hh.symm
    simp [headerAdd, hne, ih h.2]

/-- Helper: folding Header.Add over further values keeps appending to the
final entry, preserving value order. -/
theorem foldl_headerAdd_last (n : String) :
    ∀ (vs ws : List String) (acc : Header), n ∉ acc.map Prod.fst →
      List.foldl (fun a v => headerAdd a n v) (acc ++ [(n, ws)]) vs =
        acc ++ [(n, ws ++ vs)] := by
  intro vs
  induction vs with
  | nil => intro ws acc _; simp
  | cons v rest ih =>
    intro ws acc h
    simp only [List.foldl_cons]
    rw [headerAdd_last n v ws acc h, ih (ws ++ [v]) acc h]
    simp

/-- Helper: folding Header.Add over all values of a fresh name produces
exactly one entry holding the values in order. -/
theorem foldl_headerAdd_fresh (n v : String) (rest : List String) (acc : Header)
    (h : n ∉ acc.map Prod.fst) :
    List.foldl (fun a w => headerAdd a n w) acc (v :: rest) = acc ++ [(n, v :: rest)] := by
  simp only [List.foldl_cons]
  rw [headerAdd_notMem n v acc h, foldl_headerAdd_last n rest [v] acc h]
  rfl

/-- Helper: the nested copy loop reproduces the source header verbatim
after the destination, given the http.Header map invariants (names nodup,
absent from the destination) and no empty value slice. -/
theorem copyHeaders_exact :
    ∀ src dst : Header, (src.map Prod.fst).Nodup →
      (∀ n, n ∈ src.map Prod.fst → n ∉ dst.map Prod.fst) →
      (∀ p ∈ src, p.2 ≠ []) →
      copyHeaders src dst = dst ++ src := by
  intro src
  induction src with
  | nil => intro dst _ _ _; simp [copyHeaders]
  | cons p rest ih =>
    intro dst hnd hdisj hne
    obtain ⟨n, vs⟩ := p
    obtain ⟨v, vtl, rfl⟩ : ∃ v vtl, vs = v :: vtl := by
      cases vs with
      | nil => exact absurd rfl (hne (n, []) (by simp))
      | cons v vtl => exact ⟨v, vtl, rfl⟩
    have hstep : copyHeaders ((n, v :: vtl) :: rest) dst =
        copyHeaders rest (List.foldl (fun a w => headerAdd a n w) dst (v :: vtl)) := rfl
    rw [hstep, foldl_headerAdd_fresh n v vtl dst (hdisj n (by simp))]
    simp only [List.map_cons, List.nodup_cons] at hnd
    rw [ih (dst ++ [(n, v :: vtl)]) hnd.2 ?_ ?_]
    · simp
    · intro n' hn'
      simp only [List.map_append, List.mem_append, List.map_cons] at *
      push_neg
      refine ⟨hdisj n' (List.mem_cons_of_mem _ hn'), ?_⟩
      intro hcontra
      simp only [List.map_nil, List.mem_cons, List.not_mem_nil, or_false] at hcontra
      exact hnd.1 (hcontra ▸ hn')
    · intro q hq
      exact hne q (List.mem_cons_of_mem _ hq)

/-- C8: the relay forwards the inbound header verbatim to the backend and
the backend response header verbatim to the caller: under the http.Header
map invariants, the relayed run carries exactly the inbound header on the
outbound request and exactly the backend header on the written response,
so two values of one name survive, in order, in both directions. -/
theorem C8_headers_preserved (inH : Header) (r : BackendResp)
    (h₁ : (inH.map Prod.fst).Nodup) (h₂ : ∀ p ∈ inH, p.2 ≠ [])
    (h₃ : (r.headers.map Prod.fst).Nodup) (h₄ : ∀ p ∈ r.headers, p.2 ≠ []) :
    relay inH (BackendOutcome.ok r) =
      ⟨RelayEvent.requestSent inH :: RelayEvent.wroteRespHeaders r.headers ::
         RelayEvent.wroteHeader r.status :: r.chunks.map RelayEvent.wroteChunk, 1⟩ := by
  have e1 : copyHeaders inH [] = inH := by
    have h := copyHeaders_exact inH [] h₁ (by simp) h₂
    simpa using h
  have e2 : copyHeaders r.headers [] = r.headers := by
    have h := copyHeaders_exact r.headers [] h₃ (by simp) h₄
    simpa using h
  simp [relay, e1, e2]

/-- Witness for C8 at a doubled X-Test header in both directions. -/
theorem C8_headers_preserved_witness :
    relay [("X-Test", ["one", "two"])]
        (BackendOutcome.ok ⟨200, [("X-Test", ["three", "four"])], ["body"], false⟩) =
      ⟨[RelayEvent.requestSent [("X-Test", ["one", "two"])],
        RelayEvent.wroteRespHeaders [("X-Test", ["three", "four"])],
        RelayEvent.wroteHeader 200,
        RelayEvent.wroteChunk "body"], 1⟩ :=
  C8_headers_preserved [("X-Test", ["one", "two"])]
    ⟨200, [("X-Test", ["three", "four"])], ["body"], false⟩
    (by decide) (by decide) (by decide) (by decide)

/-- C5 counterexample: a backend response whose body stream fails midway
(midErr) yields a relayed run with the backend status already written and
no 502 anywhere — the io.Copy error is discarded — so the claim that a
mid-stream failure is surfaced as a bad-gateway response is false. -/
theorem C5_counterexample :
    RelayEvent.error502 ∉
      (relay [] (BackendOutcome.ok ⟨200, [], ["partial"], true⟩)).events ∧
    RelayEvent.wroteHeader 200 ∈
      (relay [] (BackendOutcome.ok ⟨200, [], ["partial"], true⟩)).events := by
  decide

/-- C5 amended: the relay sends the forwarded request exactly once (no
retry); a backend connection failure is surfaced as 502 with no status
written from a backend; and once a backend response arrives, a mid-stream
body failure is never surfaced as 502 — the backend status stands and the
body is simply truncated. -/
theorem C5_amended (inH : Header) (be : BackendOutcome) :
    (relay inH be).requestCount = 1 ∧
    (be = BackendOutcome.connError →
      RelayEvent.error502 ∈ (relay inH be).events ∧
      ∀ s, RelayEvent.wroteHeader s ∉ (relay inH be).events) ∧
    (∀ r, be = BackendOutcome.ok r →
      RelayEvent.error502 ∉ (relay inH be).events) := by
  cases be with
  | connError => simp [relay]
  | ok r => simp [relay]

/-- Witness for C5 amended: a connection failure yields the 502; a run
with a mid-stream body failure yields none. -/
theorem C5_amended_witness :
    (RelayEvent.error502 ∈ (relay [] BackendOutcome.connError).events ∧
     ∀ s, RelayEvent.wroteHeader s ∉ (relay [] BackendOutcome.connError).events) ∧
    RelayEvent.error502 ∉
      (relay [] (BackendOutcome.ok ⟨200, [], ["a"], true⟩)).events :=
  ⟨(C5_amended [] BackendOutcome.connError).2.1 rfl,
   (C5_amended [] (BackendOutcome.ok ⟨200, [], ["a"], true⟩)).2.2 ⟨200, [], ["a"], true⟩ rfl⟩

/-! ## Claim about the configuration durations -/

/-- C10: a non-empty POLL_INTERVAL_SEC (resp. WAKE_TIMEOUT_SEC) string s
is parsed as time.ParseDuration of s with the literal suffix "s" appended;
a successful parse is used as-is and a failed parse silently falls back to
the 2s (resp. 120s) default with no startup error; consequently the value
"1m" becomes "1ms", one millisecond, not one minute. -/
theorem C10_duration_config :
    (∀ s : String, s ≠ "" → ∀ d, parseDuration (s ++ "s") = some d →
      effectivePollInterval s = d) ∧
    (∀ s : String, s ≠ "" → parseDuration (s ++ "s") = none →
      effectivePollInterval s = 2 * (nsPerSec : Int)) ∧
    (∀ s : String, s ≠ "" → ∀ d, parseDuration (s ++ "s") = some d →
      effectiveWakeTimeout s = d) ∧
    (∀ s : String, s ≠ "" → parseDuration (s ++ "s") = none →
      effectiveWakeTimeout s = 120 * (nsPerSec : Int)) ∧
    effectivePollInterval "1m" = 1000000 ∧
    (1000000 : Int) ≠ 60 * (nsPerSec : Int) := by
  refine ⟨?_, ?_, ?_, ?_, by rfl, by decide⟩
  · intro s hs d hp
    simp [effectivePollInterval, hs, hp]
  · intro s hs hp
    simp [effectivePollInterval, hs, hp]
  · intro s hs d hp
    simp [effectiveWakeTimeout, hs, hp]
  · intro s hs hp
    simp [effectiveWakeTimeout, hs, hp]

/-- Witness for C10: a plain number of seconds parses, a non-numeric value
falls back to the default. -/
theorem C10_duration_config_witness :
    effectivePollInterval "3" = 3000000000 ∧
    effectiveWakeTimeout "nope" = 120 * (nsPerSec : Int) :=
  ⟨C10_duration_config.1 "3" (by decide) 3000000000 (by rfl),
   C10_duration_config.2.2.2.1 "nope" (by decide) (by rfl)⟩

end WakeOllama
